import Mathlib

/-!
The program dump_waveforms: a shallow embedding of `main.c`.

The program opens a PFM index, computes the window of bins matching the
bounding box of an area polygon, scans those bins for HOF soundings inside
the polygon, sorts the collected (file, record) pairs with `qsort` and
`compare_files`, and then writes one text block per record.

Conventions of the embedding:

* `int32_t` values are `Int`. A signed sum that is not representable is
  undefined in C: `add32` and `sub32` return `none` there, and
  `adjust_checked`, `scan_checked` and `grid_window_checked` are the window
  code with that made explicit. `adjust_to_pfm_bounds` and `scan`, which
  `main` uses, take the sums in `ℤ` and agree with the checked versions
  wherever those are defined.
* A `double` is the rational number it denotes (`ℚ`; no NaN, no infinity).
  The rounding of the double subtraction and division of the window
  computation and of `NINT` is not modelled: these operations are the
  parameter `DoubleArith`; comparisons of doubles are exact.
* The PFM library, the HOF and waveform readers, `inside_polygon2` and the
  geoid lookup are not part of this repository: they are parameters (`PFM`,
  `Readers`, `World`). `qsort` is a parameter of `main` too, and the
  definition `qsort` is the merge sort of the GNU C library.
* `realloc` is taken to succeed, and the progress messages on `stderr` are
  left out.
-/

namespace DumpWaveforms

/-! ## Data model -/

/-- The value is representable as `int32_t`. -/
@[reducible]
def fits_int32 (x : Int) : Prop := -2147483648 ≤ x ∧ x ≤ 2147483647

/-- The `int32_t` sum `a + b`: undefined in C (`none`) when it is not
representable. -/
def add32 (a b : Int) : Option Int :=
  if -2147483648 ≤ a + b ∧ a + b ≤ 2147483647 then some (a + b) else none

/-- The `int32_t` difference `a - b`: undefined in C (`none`) when it is not
representable. -/
def sub32 (a b : Int) : Option Int :=
  if -2147483648 ≤ a - b ∧ a - b ≤ 2147483647 then some (a - b) else none

/-- The pair type of `file_rec`: `x` is the file number, `y` the record number. -/
structure NV_I32_COORD2 where
  x : Int
  y : Int
deriving DecidableEq, Repr

/-- Minimum bounding rectangle. -/
structure NV_F64_XYMBR where
  min_y : ℚ
  min_x : ℚ
  max_y : ℚ
  max_x : ℚ

/-- The fields of a PFM depth record that `main` reads. -/
structure DEPTH_RECORD where
  validity : Nat
  file_number : Nat
  ping_number : Nat
  x : ℚ
  y : ℚ

/-- The fields of `open_args.head` that `main` reads. -/
structure BIN_HEADER where
  mbr : NV_F64_XYMBR
  bin_width : Int
  bin_height : Int
  x_bin_size_degrees : ℚ
  y_bin_size_degrees : ℚ

/-- The constants of `pfm.h` used by `main` (the header is not part of the
repository, so their values are parameters). -/
structure PfmConsts where
  PFM_INVAL : Nat
  PFM_DELETED : Nat
  PFM_SHOALS_1K_DATA : Int
  PFM_CHARTS_HOF_DATA : Int

/-- An open PFM index, as seen through the library calls of `main`. -/
structure PFM where
  head : BIN_HEADER
  /-- Result of `get_next_list_file_number`. -/
  last : Int
  /-- Data type that `read_list_file` stores for a list entry. -/
  read_list_file : Int → Int
  /-- The `num_soundings` field that `read_bin_record_index` returns. -/
  read_bin_record_index : NV_I32_COORD2 → Nat
  /-- Return value of `read_depth_array_index` and the array `dep[0 .. recnum)`. -/
  read_depth_array_index : NV_I32_COORD2 → Int × List DEPTH_RECORD

/-- The area polygon as loaded by `get_area_mbr`, with the external
`inside_polygon2` test. -/
structure Area where
  polygon_x : List ℚ
  polygon_y : List ℚ
  polygon_count : Int
  mbr : NV_F64_XYMBR
  inside_polygon2 : List ℚ → List ℚ → Int → ℚ → ℚ → Int

/-! ## Loops -/

/-- Worker of `forLoop`: at most `fuel` iterations. -/
def forLoopAux {σ : Type} (body : Int → σ → σ) (hi : Int) : Nat → Int → σ → σ
  | 0, _, s => s
  | fuel + 1, i, s => if i < hi then forLoopAux body hi fuel (i + 1) (body i s) else s

/-- The C loop `for (i = lo ; i < hi ; i++) body`, as a state transformer.
The fuel `hi - lo` is the exact number of iterations (`forLoop_eq_foldl`). -/
def forLoop {σ : Type} (lo hi : Int) (body : Int → σ → σ) (s : σ) : σ :=
  forLoopAux body hi (hi - lo).toNat lo s

/-- The integers `lo, lo + 1, ..., hi - 1` in order. -/
def intRange (lo hi : Int) : List Int :=
  (List.range (hi - lo).toNat).map (fun (k : Nat) => lo + (k : Int))

/-! ## Building the data type table (main.c 187-196) -/

/-- State of the table loop: `data_type_lut` and `hit`. -/
structure LutState where
  data_type_lut : List Int
  hit : Bool

/-- One iteration of the loop over the list file entries. -/
def lut_step (k : PfmConsts) (pfm : PFM) (list : Int) (s : LutState) : LutState :=
  let lut := s.data_type_lut.set list.toNat (pfm.read_list_file list)
  if lut.getD list.toNat 0 = k.PFM_SHOALS_1K_DATA ∨ lut.getD list.toNat 0 = k.PFM_CHARTS_HOF_DATA
  then { data_type_lut := lut, hit := true }
  else { data_type_lut := lut, hit := s.hit }

/-- The `memset` of the 4096 entries followed by the loop `list = 0 .. last - 1`. -/
def build_lut (k : PfmConsts) (pfm : PFM) : LutState :=
  forLoop 0 pfm.last (lut_step k pfm) { data_type_lut := List.replicate 4096 0, hit := false }

/-- Reading `data_type_lut[n]`. An index outside the 4096 entries is undefined
in C; the model reads 0 there, and the theorems about the table only use
indices below 4096. -/
def lut_read (lut : List Int) (n : Nat) : Int := lut.getD n 0

/-! ## The bin scan (main.c 243-293) -/

/-- State of the scan: the cells passed to `read_bin_record_index` so far and
the growing `file_rec` array. -/
structure ScanState where
  bins_read : List NV_I32_COORD2
  file_rec : List NV_I32_COORD2

/-- The loop `for (k = 0 ; k < recnum ; k++)` over `dep`, appending to `file_rec`. -/
def scan_records (k : PfmConsts) (area : Area) (data_type_lut : Nat → Int) (inval : Bool) :
    List DEPTH_RECORD → List NV_I32_COORD2 → List NV_I32_COORD2
  | [], file_rec => file_rec
  | d :: dep, file_rec =>
    if d.validity &&& k.PFM_DELETED = 0 then
      if d.validity &&& k.PFM_INVAL = 0 ∨ inval = true then
        if data_type_lut d.file_number = k.PFM_SHOALS_1K_DATA ∨
            data_type_lut d.file_number = k.PFM_CHARTS_HOF_DATA then
          if area.inside_polygon2 area.polygon_x area.polygon_y area.polygon_count d.x d.y ≠ 0 then
            scan_records k area data_type_lut inval dep
              (file_rec ++ [{ x := (d.file_number : Int), y := (d.ping_number : Int) }])
          else scan_records k area data_type_lut inval dep file_rec
        else scan_records k area data_type_lut inval dep file_rec
      else scan_records k area data_type_lut inval dep file_rec
    else scan_records k area data_type_lut inval dep file_rec

/-- The body of the inner loop for the cell `coord`. -/
def scan_cell (k : PfmConsts) (pfm : PFM) (area : Area) (data_type_lut : Nat → Int)
    (inval : Bool) (coord : NV_I32_COORD2) (s : ScanState) : ScanState :=
  let s1 : ScanState := { bins_read := s.bins_read ++ [coord], file_rec := s.file_rec }
  if pfm.read_bin_record_index coord ≠ 0 then
    if (pfm.read_depth_array_index coord).1 = 0 then
      { bins_read := s1.bins_read,
        file_rec := scan_records k area data_type_lut inval
          (pfm.read_depth_array_index coord).2 s1.file_rec }
    else s1
  else s1

/-- The two nested loops over the window, rows outside, columns inside. The
loop bounds `y_start + height` and `x_start + width` are taken in `ℤ`; C
defines them only when they are representable, see `scan_checked`. -/
def scan (k : PfmConsts) (pfm : PFM) (area : Area) (data_type_lut : Nat → Int) (inval : Bool)
    (x_start y_start width height : Int) : ScanState :=
  forLoop y_start (y_start + height)
    (fun i s => forLoop x_start (x_start + width)
      (fun j s => scan_cell k pfm area data_type_lut inval { x := j, y := i } s) s)
    { bins_read := [], file_rec := [] }

/-- The two nested loops with the `int32_t` sums of the loop tests made
explicit: `y_start + height` is evaluated by the first test of the outer
loop, `x_start + width` by the first test of the inner loop, which is
reached only if the outer loop runs; `none` when an evaluated sum is
undefined. -/
def scan_checked (k : PfmConsts) (pfm : PFM) (area : Area) (data_type_lut : Nat → Int)
    (inval : Bool) (x_start y_start width height : Int) : Option ScanState :=
  (add32 y_start height).bind (fun y_end =>
    if y_start < y_end then
      (add32 x_start width).bind (fun x_end =>
        some (forLoop y_start y_end
          (fun i s => forLoop x_start x_end
            (fun j s => scan_cell k pfm area data_type_lut inval { x := j, y := i } s) s)
          { bins_read := [], file_rec := [] }))
    else some { bins_read := [], file_rec := [] })

/-- The cells of the window in scan order. -/
def window_cells (x_start y_start width height : Int) : List NV_I32_COORD2 :=
  (intRange y_start (y_start + height)).flatMap
    (fun i => (intRange x_start (x_start + width)).map
      (fun j => ({ x := j, y := i } : NV_I32_COORD2)))

/-- The depth records of a cell that the scan gets to see: the array returned
by `read_depth_array_index` when the bin is not empty and the read succeeds. -/
def bin_records (pfm : PFM) (coord : NV_I32_COORD2) : List DEPTH_RECORD :=
  if pfm.read_bin_record_index coord ≠ 0 ∧ (pfm.read_depth_array_index coord).1 = 0
  then (pfm.read_depth_array_index coord).2 else []

/-! ## The grid window (main.c 219-232) -/

/-- Conversion of a `double` to `int32_t`: truncation toward zero. -/
def trunc (q : ℚ) : Int := if q < 0 then -⌊-q⌋ else ⌊q⌋

/-- Modelled from the spec: the `NINT` macro of `nvutility.h`, which is not
part of the repository; the spec calls it nearest-cell rounding. It adds or
subtracts one half and truncates, so halves round away from zero. This is
the macro in exact arithmetic; the double addition inside it can round. -/
def NINT (a : ℚ) : Int := if a < 0 then trunc (a - 1 / 2) else trunc (a + 1 / 2)

/-- The double operations of the window computation: subtraction, division
and the `NINT` macro. They are parameters because the rounding of double
arithmetic is not modelled. -/
structure DoubleArith where
  sub : ℚ → ℚ → ℚ
  div : ℚ → ℚ → ℚ
  nint : ℚ → Int

/-- Arithmetic without rounding error. Double arithmetic agrees with it on
operands for which every operation is exact, such as the sample values. -/
def exact_arith : DoubleArith :=
  { sub := fun a b => a - b, div := fun a b => a / b, nint := NINT }

/-- The window `x_start, y_start, width, height`. -/
structure Window where
  x_start : Int
  y_start : Int
  width : Int
  height : Int
deriving DecidableEq, Repr

/-- The step "Match to nearest cell", on the double arithmetic `A`. -/
def match_to_nearest_cell (A : DoubleArith) (mbr : NV_F64_XYMBR) (head : BIN_HEADER) : Window :=
  { x_start := A.nint (A.div (A.sub mbr.min_x head.mbr.min_x) head.x_bin_size_degrees),
    y_start := A.nint (A.div (A.sub mbr.min_y head.mbr.min_y) head.y_bin_size_degrees),
    width := A.nint (A.div (A.sub mbr.max_x mbr.min_x) head.x_bin_size_degrees),
    height := A.nint (A.div (A.sub mbr.max_y mbr.min_y) head.y_bin_size_degrees) }

/-- The step "Adjust to PFM bounds if necessary". The sums and differences
are taken in `ℤ`; C defines them only when they are representable, see
`adjust_checked`. -/
def adjust_to_pfm_bounds (w : Window) (bin_width bin_height : Int) : Window :=
  let x_start := if w.x_start < 0 then 0 else w.x_start
  let y_start := if w.y_start < 0 then 0 else w.y_start
  let width := if x_start + w.width > bin_width then bin_width - x_start else w.width
  let height := if y_start + w.height > bin_height then bin_height - y_start else w.height
  { x_start := x_start, y_start := y_start, width := width, height := height }

/-- The step "Adjust to PFM bounds if necessary" with its `int32_t`
arithmetic made explicit, in the order of main.c 229-232: `none` when a sum
or difference that the step evaluates is undefined. -/
def adjust_checked (w : Window) (bin_width bin_height : Int) : Option Window :=
  let x_start := if w.x_start < 0 then 0 else w.x_start
  let y_start := if w.y_start < 0 then 0 else w.y_start
  (add32 x_start w.width).bind (fun sum_x =>
    (if sum_x > bin_width then sub32 bin_width x_start else some w.width).bind (fun width =>
      (add32 y_start w.height).bind (fun sum_y =>
        (if sum_y > bin_height then sub32 bin_height y_start else some w.height).bind
          (fun height =>
            some { x_start := x_start, y_start := y_start, width := width, height := height }))))

/-- The test "Specified area is completely outside of the PFM bounds". -/
def outside_pfm_bounds (mbr hmbr : NV_F64_XYMBR) : Bool :=
  decide (mbr.min_y > hmbr.max_y ∨ mbr.max_y < hmbr.min_y ∨
    mbr.min_x > hmbr.max_x ∨ mbr.max_x < hmbr.min_x)

/-! ## The sort step (main.c 84-92, 300) -/

/-- The comparison function handed to `qsort`. -/
def compare_files (sa sb : NV_I32_COORD2) : Int := if sa.x < sb.x then 0 else 1

/-- What the C standard asks of a `qsort` comparison function: the sign of
the result is a consistent total preorder (negative, zero, positive for
less, equal, greater). -/
def ValidComparator {α : Type} (cmp : α → α → Int) : Prop :=
  (∀ a b, cmp a b < 0 ↔ 0 < cmp b a) ∧
  (∀ a b c, cmp a b ≤ 0 → cmp b c ≤ 0 → cmp a c ≤ 0)

/-- The merge loop of `msort_with_tmp`: while both halves hold elements, the
first element of `b1` is taken when `cmp (b1, b2) <= 0` and the first
element of `b2` otherwise; what is left of either half follows. Each turn
takes one element, so a fuel of `n1 + n2` is enough. -/
def merge {α : Type} (cmp : α → α → Int) : Nat → List α → List α → List α
  | 0, b1, b2 => b1 ++ b2
  | _ + 1, [], b2 => b2
  | _ + 1, a :: b1, [] => a :: b1
  | fuel + 1, a :: b1, b :: b2 =>
    if cmp a b ≤ 0 then a :: merge cmp fuel b1 (b :: b2)
    else b :: merge cmp fuel (a :: b1) b2

/-- The routine `msort_with_tmp` of the GNU C library (`stdlib/msort.c`):
an array of at most one element is left alone, otherwise the first `n / 2`
elements and the rest are sorted and merged. The halves are shorter than the
array, so a fuel of the length is enough. -/
def msort_with_tmp {α : Type} (cmp : α → α → Int) : Nat → List α → List α
  | 0, b => b
  | fuel + 1, b =>
    if b.length ≤ 1 then b
    else merge cmp b.length (msort_with_tmp cmp fuel (b.take (b.length / 2)))
      (msort_with_tmp cmp fuel (b.drop (b.length / 2)))

/-- The C library routine `qsort` as the GNU C library implements it: the
merge sort `msort_with_tmp`. The library is not part of the repository. -/
def qsort {α : Type} (cmp : α → α → Int) (b : List α) : List α :=
  msort_with_tmp cmp b.length b

/-- Rendering of `%d`. -/
def fmt_d (v : Int) : String := toString v

/-- Body of a sample loop: `if (j) fprintf "%d"; if (j != size - 1) fprintf ","`. -/
def sample_step (size : Int) (samples : Nat → Int) (j : Int) (out : String) : String :=
  let out1 := if j ≠ 0 then out ++ fmt_d (samples j.toNat) else out
  if j ≠ size - 1 then out1 ++ "," else out1

/-- The text written by one loop `for (j = 1 ; j < size ; j++)` and the
`fprintf (ofp, "\n")` after it. -/
def sample_line (size : Int) (samples : Nat → Int) : String :=
  forLoop 1 size (sample_step size samples) "" ++ "\n"

/-! ## The extraction loop (main.c 303-404) -/

/-- Sizes read by `wave_read_header`. -/
structure WAVE_HEADER_T where
  pmt_size : Int
  apd_size : Int
  ir_size : Int
  raman_size : Int

/-- The four sample arrays of a waveform record. -/
structure WAVE_DATA_T where
  pmt : Nat → Int
  apd : Nat → Int
  ir : Nat → Int
  raman : Nat → Int

/-- The fields of a HOF record that are written. -/
structure HYDRO_OUTPUT_T where
  latitude : ℚ
  longitude : ℚ
  correct_depth : ℚ

/-- The external readers. A `FILE *` is `none` for `NULL` and `some i` for
the stream returned by the open call made at loop index `i`. -/
structure Readers where
  /-- Whether `open_hof_file`, called at loop index `i`, returns a stream. -/
  open_hof_file : Nat → Bool
  /-- Whether `open_wave_file`, called at loop index `i`, returns a stream. -/
  open_wave_file : Nat → Bool
  wave_read_header : Option Nat → WAVE_HEADER_T
  hof_read_record : Option Nat → Int → HYDRO_OUTPUT_T
  wave_read_record : Option Nat → Int → WAVE_DATA_T
  get_geoid12b : ℚ → ℚ → ℚ
  /-- The line written by `fprintf (ofp, "%.9f,%.9f,%f\n", ...)`. -/
  fprintf_pos : ℚ → ℚ → ℚ → String

/-- The two kinds of stream of the extraction loop. -/
inductive FileKind where
  | hof
  | wave
deriving DecidableEq, Repr

/-- A stream: its kind and the loop index of the call that opened it. -/
structure Handle where
  kind : FileKind
  id : Nat
deriving DecidableEq, Repr

/-- Successful opens and closes, in program order. -/
inductive HandleEvent where
  | fopen (h : Handle)
  | fclose (h : Handle)
deriving DecidableEq, Repr

/-- The event of `fclose (p)`. -/
def fclose_event (kind : FileKind) (p : Option Nat) : List HandleEvent :=
  match p with
  | some i => [HandleEvent.fclose { kind := kind, id := i }]
  | none => []

/-- State of the extraction loop. -/
structure ExtractState where
  prev_file : Int
  good : Bool
  hfp : Option Nat
  wfp : Option Nat
  wave_header : WAVE_HEADER_T
  /-- Lines written to the output file so far. -/
  ofp : List String
  events : List HandleEvent

/-- The header line written before the loop. -/
def header_line : String :=
  "#First line - LAT,LON,Z ; 2nd line - 500 PMT values ; 3rd line - 200 APD values ; 4th line - 200 IR values ; 5th line - 80 Raman values ; [Wash, rinse, repeat]\n"

/-- The five lines written for one record (main.c 340-380). -/
def record_block (R : Readers) (ortho : Bool) (hfp wfp : Option Nat) (wave_header : WAVE_HEADER_T)
    (recnum : Int) : List String :=
  let hof := R.hof_read_record hfp recnum
  let wave_data := R.wave_read_record wfp recnum
  let value := R.get_geoid12b hof.latitude hof.longitude
  let correct_depth :=
    if ortho = true then (if value ≠ -999 then hof.correct_depth - value else hof.correct_depth)
    else hof.correct_depth
  [R.fprintf_pos hof.latitude hof.longitude correct_depth,
   sample_line wave_header.pmt_size wave_data.pmt,
   sample_line wave_header.apd_size wave_data.apd,
   sample_line wave_header.ir_size wave_data.ir,
   sample_line wave_header.raman_size wave_data.raman]

/-- One iteration of the loop over `file_rec`, at index `i`. -/
def extract_step (R : Readers) (ortho : Bool) (i : Nat) (rec : NV_I32_COORD2)
    (s : ExtractState) : ExtractState :=
  if s.prev_file ≠ rec.x then
    let events :=
      if s.good = true then
        s.events ++ fclose_event FileKind.wave s.wfp ++ fclose_event FileKind.hof s.hfp
      else s.events
    if R.open_hof_file i = true then
      if R.open_wave_file i = true then
        { prev_file := rec.x, good := true, hfp := some i, wfp := some i,
          wave_header := R.wave_read_header (some i), ofp := s.ofp,
          events := events ++ [HandleEvent.fopen { kind := FileKind.hof, id := i },
            HandleEvent.fopen { kind := FileKind.wave, id := i }] }
      else
        { prev_file := rec.x, good := false, hfp := some i, wfp := none,
          wave_header := s.wave_header, ofp := s.ofp,
          events := events ++ [HandleEvent.fopen { kind := FileKind.hof, id := i }] }
    else
      { prev_file := rec.x, good := false, hfp := none, wfp := s.wfp,
        wave_header := s.wave_header, ofp := s.ofp, events := events }
  else
    if s.good = true then
      { prev_file := s.prev_file, good := s.good, hfp := s.hfp, wfp := s.wfp,
        wave_header := s.wave_header,
        ofp := s.ofp ++ record_block R ortho s.hfp s.wfp s.wave_header rec.y,
        events := s.events }
    else s

/-- The loop `for (i = 0 ; i < file_rec_count ; i++)`, from index `i` on. -/
def extract_loop (R : Readers) (ortho : Bool) : Nat → List NV_I32_COORD2 → ExtractState →
    ExtractState
  | _, [], s => s
  | i, rec :: rest, s => extract_loop R ortho (i + 1) rest (extract_step R ortho i rec s)

/-- The cleanup after the loop: `if (good) fclose (wfp), fclose (hfp)`. -/
def final_cleanup (s : ExtractState) : ExtractState :=
  if s.good = true then
    { s with events := s.events ++ fclose_event FileKind.wave s.wfp ++
        fclose_event FileKind.hof s.hfp }
  else s

/-- The state in which the loop starts, after the header line is written. -/
def extract_init (wave_header : WAVE_HEADER_T) : ExtractState :=
  { prev_file := -1, good := false, hfp := none, wfp := none, wave_header := wave_header,
    ofp := [header_line], events := [] }

/-- Header line, loop and cleanup (main.c 303-404). The initial content of
`wave_header` is indeterminate in C; it is a parameter here. -/
def extract (R : Readers) (ortho : Bool) (wave_header : WAVE_HEADER_T)
    (file_rec : List NV_I32_COORD2) : ExtractState :=
  final_cleanup (extract_loop R ortho 0 file_rec (extract_init wave_header))

/-- Index of the first candidate of the run that holds index `i`: the last
index `j ≤ i` that is `0` or whose file id differs from the one before it. -/
def run_start (file_rec : List NV_I32_COORD2) : Nat → Nat
  | 0 => 0
  | i + 1 =>
    if (file_rec.getD i { x := 0, y := 0 }).x ≠ (file_rec.getD (i + 1) { x := 0, y := 0 }).x
    then i + 1 else run_start file_rec i

/-- The streams that were opened and not closed afterwards. -/
def still_open : List HandleEvent → List Handle
  | [] => []
  | HandleEvent.fopen h :: rest =>
    if HandleEvent.fclose h ∈ rest then still_open rest else h :: still_open rest
  | HandleEvent.fclose _ :: rest => still_open rest

/-! ## The area file check (main.c 168-173) -/

/-- The C function `strstr`: the rest of the haystack from the first
occurrence of the needle on, or `none`. -/
def strstr : List Char → List Char → Option (List Char)
  | [], needle => if needle = [] then some [] else none
  | c :: cs, needle =>
    if needle.isPrefixOf (c :: cs) = true then some (c :: cs) else strstr cs needle

/-- The test of main.c 168: the name is taken for an area file. -/
def known_area_file (area_file : List Char) : Bool :=
  !((strstr area_file ".are".data).isNone && (strstr area_file ".ARE".data).isNone &&
    (strstr area_file ".afs".data).isNone)

/-- The extension of a file name: the text from its last dot on. -/
def extension : List Char → Option (List Char)
  | [] => none
  | c :: cs =>
    match extension cs with
    | some e => some e
    | none => if c = '.' then some (c :: cs) else none

/-! ## The program -/

/-- The values left by the `getopt` loop. -/
structure Args where
  /-- The `default` case of the option switch was reached. -/
  bad_option : Bool
  /-- The test `optind < argc`: a PFM file name is present. -/
  have_pfm : Bool
  got_area : Bool
  got_out : Bool
  inval : Bool
  ortho : Bool
  area_file : List Char

/-- Everything outside the program. -/
structure World where
  k : PfmConsts
  /-- Result of `open_existing_pfm_file`. -/
  pfm_handle : Int
  /-- Exit status of the library routine `pfm_error_exit`. -/
  pfm_error_status : Int
  pfm : PFM
  /-- What `get_area_mbr` loads from the area file. -/
  area : Area
  /-- Whether `fopen (out_file, "w")` succeeds. -/
  fopen_out : Bool
  readers : Readers
  /-- Indeterminate initial content of `wave_header`. -/
  wave_header : WAVE_HEADER_T
  /-- The C library routine `qsort`. -/
  qsort : (NV_I32_COORD2 → NV_I32_COORD2 → Int) → List NV_I32_COORD2 → List NV_I32_COORD2
  /-- The double arithmetic of the window computation. -/
  arith : DoubleArith

/-- What a run of the program does. -/
structure Outcome where
  /-- Argument of `exit`, or the value returned by `main`. -/
  status : Int
  /-- The routine `usage` was called. -/
  usage_shown : Bool
  /-- The call `get_area_mbr` was made. -/
  area_loaded : Bool
  /-- The output file was opened (and truncated). -/
  out_opened : Bool
  /-- Cells passed to `read_bin_record_index`. -/
  bins_read : List NV_I32_COORD2
  /-- Lines written to the output file. -/
  ofp : List String
  events : List HandleEvent

/-- An exit before anything is read or written. -/
def early_exit (status : Int) (usage_shown area_loaded out_opened : Bool) : Outcome :=
  { status := status, usage_shown := usage_shown, area_loaded := area_loaded,
    out_opened := out_opened, bins_read := [], ofp := [], events := [] }

/-- The function `main`, after the `getopt` loop. -/
def main (w : World) (a : Args) : Outcome :=
  if a.bad_option = true then early_exit (-1) true false false
  else if a.have_pfm = false ∨ a.got_area = false ∨ a.got_out = false then
    early_exit (-1) true false false
  else if w.pfm_handle < 0 then early_exit w.pfm_error_status false false false
  else if known_area_file a.area_file = false then early_exit (-1) true false false
  else if w.fopen_out = false then early_exit (-1) false true false
  else
    let lut := build_lut w.k w.pfm
    if lut.hit = false then early_exit (-1) false true true
    else if outside_pfm_bounds w.area.mbr w.pfm.head.mbr = true then
      early_exit (-1) false true true
    else
      let win := adjust_to_pfm_bounds (match_to_nearest_cell w.arith w.area.mbr w.pfm.head)
        w.pfm.head.bin_width w.pfm.head.bin_height
      let sc := scan w.k w.pfm w.area (lut_read lut.data_type_lut) a.inval
        win.x_start win.y_start win.width win.height
      let file_rec := w.qsort compare_files sc.file_rec
      let ex := extract w.readers a.ortho w.wave_header file_rec
      { status := 0, usage_shown := false, area_loaded := true, out_opened := true,
        bins_read := sc.bins_read, ofp := ex.ofp, events := ex.events }

/-- What one depth record adds to `file_rec`: its pair if it passes the four
tests, nothing otherwise. -/
def candidate_of (k : PfmConsts) (area : Area) (data_type_lut : Nat → Int) (inval : Bool)
    (d : DEPTH_RECORD) : List NV_I32_COORD2 :=
  if d.validity &&& k.PFM_DELETED = 0 ∧ (d.validity &&& k.PFM_INVAL = 0 ∨ inval = true) ∧
      (data_type_lut d.file_number = k.PFM_SHOALS_1K_DATA ∨
        data_type_lut d.file_number = k.PFM_CHARTS_HOF_DATA) ∧
      area.inside_polygon2 area.polygon_x area.polygon_y area.polygon_count d.x d.y ≠ 0
  then [{ x := (d.file_number : Int), y := (d.ping_number : Int) }] else []

/-- What the candidate at index `i` adds to the output file: one block,
read through the streams of its run, if it is not the first candidate of its
run and both files of the run opened; nothing otherwise. -/
def candidate_output (R : Readers) (ortho : Bool) (file_rec : List NV_I32_COORD2) (i : Nat) :
    List String :=
  if run_start file_rec i ≠ i ∧ R.open_hof_file (run_start file_rec i) = true ∧
      R.open_wave_file (run_start file_rec i) = true
  then record_block R ortho (some (run_start file_rec i)) (some (run_start file_rec i))
    (R.wave_read_header (some (run_start file_rec i))) (file_rec.getD i { x := 0, y := 0 }).y
  else []

/-- Invariant of the extraction loop after `i` candidates. -/
def ExtractInv (R : Readers) (ortho : Bool) (file_rec : List NV_I32_COORD2) (i : Nat)
    (s : ExtractState) : Prop :=
  s.ofp = header_line :: (List.range i).flatMap (candidate_output R ortho file_rec) ∧
  match i with
  | 0 => s.prev_file = -1
  | j + 1 =>
    s.prev_file = (file_rec.getD j { x := 0, y := 0 }).x ∧
    (s.good = true ↔ (R.open_hof_file (run_start file_rec j) = true ∧
      R.open_wave_file (run_start file_rec j) = true)) ∧
    (s.good = true → s.hfp = some (run_start file_rec j) ∧ s.wfp = some (run_start file_rec j) ∧
      s.wave_header = R.wave_read_header (some (run_start file_rec j)))

/-! ## A small sample index, used to instantiate the theorems -/

/-- Sample values for the constants of `pfm.h`. -/
def sample_consts : PfmConsts :=
  { PFM_INVAL := 3, PFM_DELETED := 512, PFM_SHOALS_1K_DATA := 12, PFM_CHARTS_HOF_DATA := 4 }

/-- Sample records: valid, invalid, deleted, and one of a file of another type. -/
def sample_dep : List DEPTH_RECORD :=
  [{ validity := 0, file_number := 0, ping_number := 7, x := 1 / 2, y := 1 / 2 },
   { validity := 1, file_number := 0, ping_number := 8, x := 1 / 2, y := 1 / 2 },
   { validity := 512, file_number := 0, ping_number := 9, x := 1 / 2, y := 1 / 2 },
   { validity := 0, file_number := 1, ping_number := 3, x := 1 / 2, y := 1 / 2 }]

/-- A sample index of 4 by 4 unit bins with origin (0, 0) and two files, the
first of HOF type; only the bin (0, 0) holds soundings. -/
def sample_pfm : PFM :=
  { head := { mbr := { min_y := 0, min_x := 0, max_y := 4, max_x := 4 },
              bin_width := 4, bin_height := 4,
              x_bin_size_degrees := 1, y_bin_size_degrees := 1 },
    last := 2,
    read_list_file := fun list => if list = 0 then 4 else 2,
    read_bin_record_index := fun c => if c.x = 0 ∧ c.y = 0 then 4 else 0,
    read_depth_array_index := fun c => if c.x = 0 ∧ c.y = 0 then (0, sample_dep) else (0, []) }

/-- A sample area whose point test accepts everything. -/
def sample_area : Area :=
  { polygon_x := [0, 4, 4, 0], polygon_y := [0, 0, 4, 4], polygon_count := 4,
    mbr := { min_y := 0, min_x := 0, max_y := 4, max_x := 4 },
    inside_polygon2 := fun _ _ _ _ _ => 1 }

/-- Sample readers: the files of the run that starts at index 2 have no
readable waveform file, all other opens succeed. -/
def sample_readers : Readers :=
  { open_hof_file := fun _ => true,
    open_wave_file := fun i => decide (i ≠ 2),
    wave_read_header := fun _ => { pmt_size := 4, apd_size := 3, ir_size := 2, raman_size := 1 },
    hof_read_record := fun _ recnum => { latitude := 30, longitude := -88, correct_depth := recnum },
    wave_read_record := fun _ recnum =>
      { pmt := fun j => recnum + j, apd := fun j => j, ir := fun j => 2 * j, raman := fun _ => 0 },
    get_geoid12b := fun _ _ => -999,
    fprintf_pos := fun _ _ _ => "30.000000000,-88.000000000,z\n" }

/-- Sample sorted candidates: a run of file 0, a run of file 1, a run of file 2. -/
def sample_file_rec : List NV_I32_COORD2 :=
  [{ x := 0, y := 7 }, { x := 0, y := 8 }, { x := 1, y := 3 }, { x := 1, y := 4 },
   { x := 2, y := 5 }, { x := 2, y := 6 }]

/-- Sample initial content of `wave_header`. -/
def sample_header : WAVE_HEADER_T := { pmt_size := 0, apd_size := 0, ir_size := 0, raman_size := 0 }

/-- Sample readers for which no waveform file can be opened. -/
def readers_without_wave : Readers :=
  { open_hof_file := fun _ => true,
    open_wave_file := fun _ => false,
    wave_read_header := sample_readers.wave_read_header,
    hof_read_record := sample_readers.hof_read_record,
    wave_read_record := sample_readers.wave_read_record,
    get_geoid12b := sample_readers.get_geoid12b,
    fprintf_pos := sample_readers.fprintf_pos }

/-- A sample run environment around the sample index and area. -/
def sample_world : World :=
  { k := sample_consts, pfm_handle := 0, pfm_error_status := -1, pfm := sample_pfm,
    area := sample_area, fopen_out := true, readers := sample_readers,
    wave_header := sample_header, qsort := qsort, arith := exact_arith }

/-- The sample environment with an area that lies east of the index. -/
def sample_world_outside : World :=
  { k := sample_consts, pfm_handle := 0, pfm_error_status := -1, pfm := sample_pfm,
    area := { polygon_x := [5, 6, 6, 5], polygon_y := [0, 0, 4, 4], polygon_count := 4,
              mbr := { min_y := 0, min_x := 5, max_y := 4, max_x := 6 },
              inside_polygon2 := fun _ _ _ _ _ => 1 },
    fopen_out := true, readers := sample_readers,
    wave_header := sample_header, qsort := qsort, arith := exact_arith }

/-- Complete sample arguments with the given area file name. -/
def sample_args (area_file : String) : Args :=
  { bad_option := false, have_pfm := true, got_area := true, got_out := true, inval := false,
    ortho := true, area_file := area_file.data }

/-! ## The grid window against the bounding box -/

/-- The statement of C2 at one input: the adjust step and the scan loops are
defined, and every cell that the loops read lies inside the index grid. -/
def ClampSafe (k : PfmConsts) (pfm : PFM) (area : Area) (data_type_lut : Nat → Int)
    (inval : Bool) (w : Window) (bin_width bin_height : Int) : Prop :=
  ∃ win st, adjust_checked w bin_width bin_height = some win ∧
    scan_checked k pfm area data_type_lut inval win.x_start win.y_start win.width win.height =
      some st ∧
    ∀ c ∈ st.bins_read, (0 ≤ c.x ∧ c.x < bin_width) ∧ (0 ≤ c.y ∧ c.y < bin_height)

theorem intRange_of_le (lo hi : Int) (h : hi ≤ lo) : intRange lo hi = [] := by
  have : (hi - lo).toNat = 0 := by omega
  simp [intRange, this]

theorem intRange_of_lt (lo hi : Int) (h : lo < hi) :
    intRange lo hi = lo :: intRange (lo + 1) hi := by
  obtain ⟨n, hn⟩ : ∃ n : Nat, (hi - lo).toNat = n + 1 := ⟨(hi - lo).toNat - 1, by omega⟩
  have h2 : (hi - (lo + 1)).toNat = n := by omega
  simp only [intRange, hn, h2, List.range_succ_eq_map, List.map_cons, List.map_map]
  refine congrArg₂ _ (by simp) (List.map_congr_left ?_)
  intro a _
  simp only [Function.comp, Nat.cast_succ]
  omega

theorem mem_intRange (lo hi i : Int) : i ∈ intRange lo hi ↔ lo ≤ i ∧ i < hi := by
  simp only [intRange, List.mem_map, List.mem_range]
  constructor
  · rintro ⟨k, hk, rfl⟩
    omega
  · rintro ⟨h1, h2⟩
    exact ⟨(i - lo).toNat, by omega, by omega⟩

theorem forLoopAux_eq_foldl {σ : Type} (body : Int → σ → σ) (hi : Int) :
    ∀ (fuel : Nat) (i : Int) (s : σ), (hi - i).toNat ≤ fuel →
      forLoopAux body hi fuel i s = (intRange i hi).foldl (fun s i => body i s) s := by
  intro fuel
  induction fuel with
  | zero =>
    intro i s h
    rw [intRange_of_le i hi (by omega)]
    rfl
  | succ n ih =>
    intro i s h
    by_cases hlt : i < hi
    · rw [intRange_of_lt i hi hlt]
      simp only [forLoopAux, hlt, if_true, List.foldl_cons]
      exact ih (i + 1) (body i s) (by omega)
    · rw [intRange_of_le i hi (by omega)]
      simp [forLoopAux, hlt]

/-- The fuel of `forLoop` never runs out: the loop is the fold of its body
over `lo, ..., hi - 1`. -/
theorem forLoop_eq_foldl {σ : Type} (lo hi : Int) (body : Int → σ → σ) (s : σ) :
    forLoop lo hi body s = (intRange lo hi).foldl (fun s i => body i s) s :=
  forLoopAux_eq_foldl body hi _ lo s (le_refl _)

/-! ## The bin scan -/

theorem scan_records_eq (k : PfmConsts) (area : Area) (lut : Nat → Int) (inval : Bool) :
    ∀ (dep : List DEPTH_RECORD) (file_rec : List NV_I32_COORD2),
      scan_records k area lut inval dep file_rec =
        file_rec ++ dep.flatMap (candidate_of k area lut inval) := by
  intro dep
  induction dep with
  | nil => intro file_rec; simp [scan_records]
  | cons d dep ih =>
    intro file_rec
    simp only [scan_records, List.flatMap_cons, candidate_of, ih]
    by_cases h1 : d.validity &&& k.PFM_DELETED = 0 <;>
    by_cases h2 : (d.validity &&& k.PFM_INVAL = 0 ∨ inval = true) <;>
    by_cases h3 : (lut d.file_number = k.PFM_SHOALS_1K_DATA ∨
        lut d.file_number = k.PFM_CHARTS_HOF_DATA) <;>
    by_cases h4 : area.inside_polygon2 area.polygon_x area.polygon_y area.polygon_count
        d.x d.y = 0 <;>
    simp [h1, h2, h3, h4]

theorem scan_cell_eq (k : PfmConsts) (pfm : PFM) (area : Area) (lut : Nat → Int) (inval : Bool)
    (coord : NV_I32_COORD2) (s : ScanState) :
    scan_cell k pfm area lut inval coord s =
      { bins_read := s.bins_read ++ [coord],
        file_rec := s.file_rec ++
          (bin_records pfm coord).flatMap (candidate_of k area lut inval) } := by
  unfold scan_cell bin_records
  by_cases h1 : pfm.read_bin_record_index coord = 0 <;>
  by_cases h2 : (pfm.read_depth_array_index coord).1 = 0 <;>
  simp [h1, h2, scan_records_eq]

theorem scan_foldl_cells (k : PfmConsts) (pfm : PFM) (area : Area) (lut : Nat → Int)
    (inval : Bool) (f : Int → NV_I32_COORD2) :
    ∀ (js : List Int) (s : ScanState),
      js.foldl (fun s j => scan_cell k pfm area lut inval (f j) s) s =
        { bins_read := s.bins_read ++ js.map f,
          file_rec := s.file_rec ++ (js.map f).flatMap
            (fun c => (bin_records pfm c).flatMap (candidate_of k area lut inval)) } := by
  intro js
  induction js with
  | nil => intro s; simp
  | cons j js ih =>
    intro s
    rw [List.foldl_cons, ih, scan_cell_eq]
    simp only [List.map_cons, List.flatMap_cons, List.append_assoc, List.singleton_append]

theorem scan_foldl_rows (k : PfmConsts) (pfm : PFM) (area : Area) (lut : Nat → Int)
    (inval : Bool) (js : List Int) :
    ∀ (is : List Int) (s : ScanState),
      is.foldl (fun s i => js.foldl
          (fun s j => scan_cell k pfm area lut inval { x := j, y := i } s) s) s =
        { bins_read := s.bins_read ++
            is.flatMap (fun i => js.map (fun j => ({ x := j, y := i } : NV_I32_COORD2))),
          file_rec := s.file_rec ++
            (is.flatMap (fun i => js.map (fun j => ({ x := j, y := i } : NV_I32_COORD2)))).flatMap
              (fun c => (bin_records pfm c).flatMap (candidate_of k area lut inval)) } := by
  intro is
  induction is with
  | nil => intro s; simp
  | cons i is ih =>
    intro s
    rw [List.foldl_cons, scan_foldl_cells k pfm area lut inval (fun j => { x := j, y := i }), ih]
    simp only [List.flatMap_cons, List.flatMap_append, List.append_assoc]

/-- The scan reads exactly the cells of the window, in order, and collects
the candidates of their records, in order. -/
theorem scan_eq (k : PfmConsts) (pfm : PFM) (area : Area) (lut : Nat → Int) (inval : Bool)
    (x_start y_start width height : Int) :
    scan k pfm area lut inval x_start y_start width height =
      { bins_read := window_cells x_start y_start width height,
        file_rec := (window_cells x_start y_start width height).flatMap
          (fun c => (bin_records pfm c).flatMap (candidate_of k area lut inval)) } := by
  unfold scan window_cells
  rw [forLoop_eq_foldl]
  simp only [forLoop_eq_foldl]
  rw [scan_foldl_rows]
  simp

theorem mem_window_cells (x_start y_start width height : Int) (c : NV_I32_COORD2) :
    c ∈ window_cells x_start y_start width height ↔
      (y_start ≤ c.y ∧ c.y < y_start + height) ∧
      (x_start ≤ c.x ∧ c.x < x_start + width) := by
  simp only [window_cells, List.mem_flatMap, List.mem_map, mem_intRange]
  constructor
  · rintro ⟨i, hi, j, hj, rfl⟩
    exact ⟨hi, hj⟩
  · rintro ⟨hi, hj⟩
    exact ⟨c.y, hi, c.x, hj, rfl⟩

/-- C1. The candidates collected by the bin scan are, cell after cell in scan
order (rows outside, columns inside) and record after record in array
order, one pair `(file_number, ping_number)` for each depth record that has
no `PFM_DELETED` bit, has no `PFM_INVAL` bit unless the include-invalid flag
is set, belongs to a file of type `PFM_SHOALS_1K_DATA` or
`PFM_CHARTS_HOF_DATA`, and is accepted by `inside_polygon2`; every other
record adds nothing. The records of a cell are those returned by
`read_depth_array_index` for a non-empty bin (`bin_records`). -/
theorem candidate_collection (k : PfmConsts) (pfm : PFM) (area : Area) (data_type_lut : Nat → Int)
    (inval : Bool) (x_start y_start width height : Int) :
    (scan k pfm area data_type_lut inval x_start y_start width height).file_rec =
      (window_cells x_start y_start width height).flatMap (fun coord =>
        (bin_records pfm coord).flatMap (fun d =>
          if d.validity &&& k.PFM_DELETED = 0 ∧
              (d.validity &&& k.PFM_INVAL = 0 ∨ inval = true) ∧
              (data_type_lut d.file_number = k.PFM_SHOALS_1K_DATA ∨
                data_type_lut d.file_number = k.PFM_CHARTS_HOF_DATA) ∧
              area.inside_polygon2 area.polygon_x area.polygon_y area.polygon_count d.x d.y ≠ 0
          then [({ x := (d.file_number : Int), y := (d.ping_number : Int) } : NV_I32_COORD2)]
          else [])) := by
  rw [scan_eq]
  rfl

theorem add32_of_fits (a b : Int) (h : fits_int32 (a + b)) : add32 a b = some (a + b) := by
  unfold add32
  rw [if_pos h]

theorem sub32_of_fits (a b : Int) (h : fits_int32 (a - b)) : sub32 a b = some (a - b) := by
  unfold sub32
  rw [if_pos h]

theorem forLoop_of_le {σ : Type} (lo hi : Int) (body : Int → σ → σ) (s : σ) (h : hi ≤ lo) :
    forLoop lo hi body s = s := by
  rw [forLoop_eq_foldl, intRange_of_le lo hi h]
  rfl

/-- Where both loop bounds are representable, the checked scan is the scan. -/
theorem scan_checked_of_fits (k : PfmConsts) (pfm : PFM) (area : Area) (lut : Nat → Int)
    (inval : Bool) (x_start y_start width height : Int)
    (hy : fits_int32 (y_start + height)) (hx : fits_int32 (x_start + width)) :
    scan_checked k pfm area lut inval x_start y_start width height =
      some (scan k pfm area lut inval x_start y_start width height) := by
  unfold scan_checked scan
  rw [add32_of_fits _ _ hy, add32_of_fits _ _ hx]
  simp only [Option.some_bind]
  split_ifs with h
  · rfl
  · rw [forLoop_of_le _ _ _ _ (by omega)]

/-- Where the sums of the adjust step are representable and the operands are
`int32_t` values with non-negative grid dimensions, the checked adjust step
is the adjust step. -/
theorem adjust_checked_of_fits (w : Window) (bin_width bin_height : Int)
    (hxs : w.x_start ≤ 2147483647) (hys : w.y_start ≤ 2147483647)
    (hbw : 0 ≤ bin_width ∧ bin_width ≤ 2147483647)
    (hbh : 0 ≤ bin_height ∧ bin_height ≤ 2147483647)
    (hsx : fits_int32 ((if w.x_start < 0 then 0 else w.x_start) + w.width))
    (hsy : fits_int32 ((if w.y_start < 0 then 0 else w.y_start) + w.height)) :
    adjust_checked w bin_width bin_height = some (adjust_to_pfm_bounds w bin_width bin_height) := by
  unfold adjust_checked adjust_to_pfm_bounds
  simp only [add32_of_fits _ _ hsx, add32_of_fits _ _ hsy, Option.some_bind]
  have dx : fits_int32 (bin_width - (if w.x_start < 0 then 0 else w.x_start)) := by
    unfold fits_int32
    split_ifs <;> constructor <;> omega
  have dy : fits_int32 (bin_height - (if w.y_start < 0 then 0 else w.y_start)) := by
    unfold fits_int32
    split_ifs <;> constructor <;> omega
  by_cases cx : (if w.x_start < 0 then 0 else w.x_start) + w.width > bin_width <;>
    by_cases cy : (if w.y_start < 0 then 0 else w.y_start) + w.height > bin_height <;>
    simp only [cx, cy, if_true, if_false, sub32_of_fits _ _ dx, sub32_of_fits _ _ dy,
      Option.some_bind]

theorem adjust_sum_x_fits (w : Window) (bin_width bin_height : Int)
    (hbw : 0 ≤ bin_width ∧ bin_width ≤ 2147483647)
    (hsx : fits_int32 ((if w.x_start < 0 then 0 else w.x_start) + w.width)) :
    fits_int32 ((adjust_to_pfm_bounds w bin_width bin_height).x_start +
      (adjust_to_pfm_bounds w bin_width bin_height).width) := by
  unfold fits_int32 at hsx ⊢
  simp only [adjust_to_pfm_bounds]
  split_ifs at hsx ⊢ <;> constructor <;> omega

theorem adjust_sum_y_fits (w : Window) (bin_width bin_height : Int)
    (hbh : 0 ≤ bin_height ∧ bin_height ≤ 2147483647)
    (hsy : fits_int32 ((if w.y_start < 0 then 0 else w.y_start) + w.height)) :
    fits_int32 ((adjust_to_pfm_bounds w bin_width bin_height).y_start +
      (adjust_to_pfm_bounds w bin_width bin_height).height) := by
  unfold fits_int32 at hsy ⊢
  simp only [adjust_to_pfm_bounds]
  split_ifs at hsy ⊢ <;> constructor <;> omega

/-- C2 (counterexample). For `x_start = width = 2000000000` on a grid of 5
by 1 bins the sum `x_start + width` of main.c 231 is 4000000000, which is
not an `int32_t`: the adjust step is undefined there, so nothing bounds the
cells that the loops read. -/
theorem window_clamping_overflow :
    add32 2000000000 2000000000 = none ∧
    adjust_checked { x_start := 2000000000, y_start := 0, width := 2000000000, height := 1 }
      5 1 = none ∧
    ¬ ClampSafe sample_consts sample_pfm sample_area (fun _ => 4) false
      { x_start := 2000000000, y_start := 0, width := 2000000000, height := 1 } 5 1 := by
  have h : adjust_checked
      { x_start := 2000000000, y_start := 0, width := 2000000000, height := 1 } 5 1 = none := by
    decide
  refine ⟨by decide, h, ?_⟩
  rintro ⟨win, st, hwin, _⟩
  rw [h] at hwin
  exact Option.noConfusion hwin

/-- C2 (amended). For `int32_t` starts and non-negative `int32_t` grid
dimensions, whenever the sums `x_start + width` and `y_start + height` that
the adjust step forms with the starts already clamped to zero are
representable as `int32_t`: the adjust step and the scan loops are defined
and every cell that the loops pass to `read_bin_record_index` lies inside
the index grid. -/
theorem window_clamping (k : PfmConsts) (pfm : PFM) (area : Area) (data_type_lut : Nat → Int)
    (inval : Bool) (w : Window) (bin_width bin_height : Int)
    (hxs : w.x_start ≤ 2147483647) (hys : w.y_start ≤ 2147483647)
    (hbw : 0 ≤ bin_width ∧ bin_width ≤ 2147483647)
    (hbh : 0 ≤ bin_height ∧ bin_height ≤ 2147483647)
    (hsx : fits_int32 ((if w.x_start < 0 then 0 else w.x_start) + w.width))
    (hsy : fits_int32 ((if w.y_start < 0 then 0 else w.y_start) + w.height)) :
    ClampSafe k pfm area data_type_lut inval w bin_width bin_height := by
  have hadj := adjust_checked_of_fits w bin_width bin_height hxs hys hbw hbh hsx hsy
  have fx := adjust_sum_x_fits w bin_width bin_height hbw hsx
  have fy := adjust_sum_y_fits w bin_width bin_height hbh hsy
  refine ⟨_, _, hadj, scan_checked_of_fits k pfm area data_type_lut inval _ _ _ _ fy fx, ?_⟩
  intro c hc
  rw [scan_eq] at hc
  simp only [mem_window_cells, adjust_to_pfm_bounds] at hc
  obtain ⟨⟨hy1, hy2⟩, hx1, hx2⟩ := hc
  refine ⟨⟨?_, ?_⟩, ?_, ?_⟩
  · split_ifs at hx1 <;> omega
  · split_ifs at hx1 hx2 <;> omega
  · split_ifs at hy1 <;> omega
  · split_ifs at hy1 hy2 <;> omega

/-- Witness of C2 (amended): a window that starts left of a grid of 5 by 6
bins and reaches beyond it on both axes; the sums are 10 and 12, the window
becomes columns 0 to 4 and rows 3 to 5. -/
theorem window_clamping_witness :
    (fits_int32 ((if (-2 : Int) < 0 then 0 else -2) + 10) ∧
      fits_int32 ((if (3 : Int) < 0 then 0 else 3) + 9)) ∧
    adjust_checked { x_start := -2, y_start := 3, width := 10, height := 9 } 5 6 =
      some { x_start := 0, y_start := 3, width := 5, height := 3 } ∧
    ClampSafe sample_consts sample_pfm sample_area (fun _ => 4) false
      { x_start := -2, y_start := 3, width := 10, height := 9 } 5 6 :=
  ⟨⟨by decide, by decide⟩, by decide,
    window_clamping sample_consts sample_pfm sample_area (fun _ => 4) false
      { x_start := -2, y_start := 3, width := 10, height := 9 } 5 6
      (by decide) (by decide) (by decide) (by decide) (by decide) (by decide)⟩

/-! ## Sample lines -/

theorem intercalate_go_snoc (s : String) : ∀ (l : List String) (acc a : String),
    String.intercalate.go acc s (l ++ [a]) = String.intercalate.go acc s l ++ s ++ a := by
  intro l
  induction l with
  | nil => intro acc a; simp [String.intercalate.go]
  | cons b l ih => intro acc a; simp [String.intercalate.go, ih]

theorem intercalate_snoc (s : String) (l : List String) (a : String) (h : l ≠ []) :
    s.intercalate (l ++ [a]) = s.intercalate l ++ s ++ a := by
  cases l with
  | nil => exact absurd rfl h
  | cons b l => simp [String.intercalate, intercalate_go_snoc]

theorem intRange_one (size : Int) :
    intRange 1 size = (List.range (size - 1).toNat).map (fun (k : Nat) => ((k : Int) + 1)) := by
  unfold intRange
  apply List.map_congr_left
  intro a _
  omega

/-- State of a sample loop after the values `1 .. t` of `1 .. m` are written. -/
theorem sample_foldl (size : Int) (samples : Nat → Int) (m : Nat) (hm : (size - 1).toNat = m) :
    ∀ t : Nat, t ≤ m →
      ((List.range t).map (fun (k : Nat) => ((k : Int) + 1))).foldl
          (fun out j => sample_step size samples j out) "" =
        ",".intercalate ((List.range t).map (fun k => fmt_d (samples (k + 1)))) ++
          (if t = 0 ∨ t = m then "" else ",") := by
  intro t
  induction t with
  | zero => intro _; simp [String.intercalate]
  | succ t ih =>
    intro ht
    rw [List.range_succ, List.map_append, List.foldl_append, ih (by omega)]
    have h1 : ((t : Int) + 1 ≠ 0) := by omega
    have h2 : (((t : Int) + 1).toNat = t + 1) := by omega
    have h3 : ((t : Int) + 1 ≠ size - 1) ↔ ¬ (t + 1 = m) := by omega
    have h4 : ¬ (t = m) := by omega
    simp only [List.map_cons, List.map_nil, List.foldl_cons, List.foldl_nil, sample_step, h1,
      h2, h3, ne_eq, not_false_eq_true, if_true, h4, or_false, List.map_append,
      Nat.add_eq_zero, one_ne_zero, and_false, false_or]
    by_cases ht0 : t = 0
    · subst ht0
      by_cases hl : 0 + 1 = m <;> simp [hl, String.intercalate, String.intercalate.go]
    · have hne : (List.range t).map (fun k => fmt_d (samples (k + 1))) ≠ [] := by
        simp [ht0]
      rw [intercalate_snoc _ _ _ hne]
      by_cases hl : t + 1 = m <;> simp [hl, ht0, String.append_assoc]

/-- A sample line for any size, also zero or negative. -/
theorem sample_line_eq (size : Int) (samples : Nat → Int) :
    sample_line size samples =
      ",".intercalate ((List.range (size - 1).toNat).map (fun k => fmt_d (samples (k + 1)))) ++
        "\n" := by
  unfold sample_line
  rw [forLoop_eq_foldl, intRange_one, sample_foldl size samples _ rfl _ (le_refl _)]
  simp

/-- C6. For a channel of header size `n`, the line written is the decimal
renderings of `samples[1], ..., samples[n-1]`, in that order, joined by
single commas (so without a leading or trailing comma), followed by one
newline; these are `n - 1` values and `samples[0]` is not among them. -/
theorem sample_line_format (n : Nat) (samples : Nat → Int) :
    sample_line (n : Int) samples =
      ",".intercalate ((List.range (n - 1)).map (fun k => fmt_d (samples (k + 1)))) ++ "\n" ∧
    ((List.range (n - 1)).map (fun k => fmt_d (samples (k + 1)))).length = n - 1 := by
  refine ⟨?_, by simp⟩
  rw [sample_line_eq]
  have : ((n : Int) - 1).toNat = n - 1 := by omega
  rw [this]


/-! ## The extraction loop -/

theorem extract_loop_append (R : Readers) (ortho : Bool) :
    ∀ (l1 l2 : List NV_I32_COORD2) (i : Nat) (s : ExtractState),
      extract_loop R ortho i (l1 ++ l2) s =
        extract_loop R ortho (i + l1.length) l2 (extract_loop R ortho i l1 s) := by
  intro l1
  induction l1 with
  | nil => intro l2 i s; simp [extract_loop]
  | cons c l1 ih =>
    intro l2 i s
    have : i + (c :: l1).length = i + 1 + l1.length := by simp; omega
    rw [this, List.cons_append, extract_loop, extract_loop, ih]

theorem take_succ_getD {α : Type} (l : List α) (i : Nat) (h : i < l.length) (d : α) :
    l.take (i + 1) = l.take i ++ [l.getD i d] := by
  rw [List.take_succ]
  simp [List.getD, List.getElem?_eq_getElem h]

theorem run_start_le (file_rec : List NV_I32_COORD2) : ∀ i, run_start file_rec i ≤ i := by
  intro i
  induction i with
  | zero => simp [run_start]
  | succ i ih =>
    simp only [run_start]
    split_ifs
    · exact le_refl _
    · omega

theorem record_block_length (R : Readers) (ortho : Bool) (hfp wfp : Option Nat)
    (wave_header : WAVE_HEADER_T) (recnum : Int) :
    (record_block R ortho hfp wfp wave_header recnum).length = 5 := by
  simp [record_block]

theorem extract_step_inv (R : Readers) (ortho : Bool) (file_rec : List NV_I32_COORD2)
    (hx : ∀ c ∈ file_rec, 0 ≤ c.x) (i : Nat) (hi : i < file_rec.length) (s : ExtractState)
    (hs : ExtractInv R ortho file_rec i s) :
    ExtractInv R ortho file_rec (i + 1)
      (extract_step R ortho i (file_rec.getD i { x := 0, y := 0 }) s) := by
  have hpos : 0 ≤ (file_rec.getD i { x := 0, y := 0 }).x := by
    apply hx
    rw [List.getD_eq_getElem _ _ hi]
    exact List.getElem_mem hi
  obtain ⟨hofp, hst⟩ := hs
  cases i with
  | zero =>
    have hne : s.prev_file ≠ (file_rec.getD 0 { x := 0, y := 0 }).x := by
      simp only at hst
      omega
    have hout : (List.range (0 + 1)).flatMap (candidate_output R ortho file_rec) =
        (List.range 0).flatMap (candidate_output R ortho file_rec) := by
      rw [List.range_succ, List.flatMap_append]
      simp only [candidate_output, run_start, ne_eq, not_true_eq_false, false_and, if_false,
        List.flatMap_cons, List.flatMap_nil, List.append_nil]
    unfold ExtractInv
    rw [hout]
    simp only [extract_step, hne, ne_eq, not_false_eq_true, if_true, run_start]
    by_cases h1 : R.open_hof_file 0 = true <;> by_cases h2 : R.open_wave_file 0 = true <;>
      simp only [h1, h2, if_true, if_false, hofp, and_self, and_true, true_and, false_and,
        and_false, implies_true, Bool.false_eq_true, false_implies, not_false_eq_true]
  | succ j =>
    obtain ⟨hprev, hgood, hh⟩ := hst
    have hle := run_start_le file_rec j
    by_cases hne : (file_rec.getD j { x := 0, y := 0 }).x =
        (file_rec.getD (j + 1) { x := 0, y := 0 }).x
    · have hrs : run_start file_rec (j + 1) = run_start file_rec j := by
        simp only [run_start, hne, ne_eq, not_true_eq_false, if_false]
      have hlt : run_start file_rec j ≠ j + 1 := by omega
      have hpe : s.prev_file = (file_rec.getD (j + 1) { x := 0, y := 0 }).x := hprev.trans hne
      by_cases hg : s.good = true
      · obtain ⟨e1, e2, e3⟩ := hh hg
        have hop := hgood.mp hg
        have hstep : extract_step R ortho (j + 1) (file_rec.getD (j + 1) { x := 0, y := 0 }) s =
            { prev_file := s.prev_file, good := s.good, hfp := s.hfp, wfp := s.wfp,
              wave_header := s.wave_header,
              ofp := s.ofp ++ record_block R ortho s.hfp s.wfp s.wave_header
                (file_rec.getD (j + 1) { x := 0, y := 0 }).y,
              events := s.events } := by
          simp only [extract_step, hpe, hg, ne_eq, not_true_eq_false, if_false, if_true]
        rw [hstep]
        refine ⟨?_, hpe, by rw [hrs]; exact hgood, fun _ => by rw [hrs]; exact ⟨e1, e2, e3⟩⟩
        show s.ofp ++ _ = _
        rw [List.range_succ, List.flatMap_append, hofp, e1, e2, e3]
        simp only [candidate_output, hrs, hlt, hop, ne_eq, not_false_eq_true, and_self, if_true,
          List.flatMap_cons, List.flatMap_nil, List.append_nil, List.cons_append]
      · have hop : ¬ (R.open_hof_file (run_start file_rec j) = true ∧
            R.open_wave_file (run_start file_rec j) = true) := fun h => hg (hgood.mpr h)
        have hstep : extract_step R ortho (j + 1) (file_rec.getD (j + 1) { x := 0, y := 0 }) s =
            s := by
          simp only [extract_step, hpe, hg, ne_eq, not_true_eq_false, if_false,
            Bool.false_eq_true]
        rw [hstep]
        refine ⟨?_, hpe, by rw [hrs]; exact hgood, fun h => absurd h hg⟩
        rw [List.range_succ, List.flatMap_append, hofp]
        simp only [candidate_output, hrs, hop, and_false, if_false, List.flatMap_cons,
          List.flatMap_nil, List.append_nil]
    · have hrs : run_start file_rec (j + 1) = j + 1 := by
        simp only [run_start, hne, ne_eq, not_false_eq_true, if_true]
      have hpe : s.prev_file ≠ (file_rec.getD (j + 1) { x := 0, y := 0 }).x := by
        rw [hprev]; exact hne
      have hout : (List.range (j + 1 + 1)).flatMap (candidate_output R ortho file_rec) =
          (List.range (j + 1)).flatMap (candidate_output R ortho file_rec) := by
        rw [List.range_succ, List.flatMap_append]
        simp only [candidate_output, hrs, ne_eq, not_true_eq_false, false_and, if_false,
          List.flatMap_cons, List.flatMap_nil, List.append_nil]
      unfold ExtractInv
      rw [hout]
      simp only [extract_step, hpe, ne_eq, not_false_eq_true, if_true, hrs]
      by_cases h1 : R.open_hof_file (j + 1) = true <;>
        by_cases h2 : R.open_wave_file (j + 1) = true <;>
        simp only [h1, h2, if_true, if_false, hofp, and_self, and_true, true_and, false_and,
          and_false, implies_true, Bool.false_eq_true, false_implies, not_false_eq_true]

theorem extract_loop_inv (R : Readers) (ortho : Bool) (wave_header : WAVE_HEADER_T)
    (file_rec : List NV_I32_COORD2) (hx : ∀ c ∈ file_rec, 0 ≤ c.x) :
    ∀ i, i ≤ file_rec.length →
      ExtractInv R ortho file_rec i
        (extract_loop R ortho 0 (file_rec.take i) (extract_init wave_header)) := by
  intro i
  induction i with
  | zero => intro _; simp [ExtractInv, extract_loop, extract_init]
  | succ i ih =>
    intro hi
    rw [take_succ_getD file_rec i (by omega) { x := 0, y := 0 }, extract_loop_append]
    have hlen : (file_rec.take i).length = i := by simp; omega
    simp only [hlen, Nat.zero_add, extract_loop]
    exact extract_step_inv R ortho file_rec hx i (by omega) _ (ih (by omega))

theorem final_cleanup_ofp (s : ExtractState) : (final_cleanup s).ofp = s.ofp := by
  unfold final_cleanup
  split_ifs <;> rfl

theorem extract_ofp (R : Readers) (ortho : Bool) (wave_header : WAVE_HEADER_T)
    (file_rec : List NV_I32_COORD2) (hx : ∀ c ∈ file_rec, 0 ≤ c.x) :
    (extract R ortho wave_header file_rec).ofp =
      header_line :: (List.range file_rec.length).flatMap (candidate_output R ortho file_rec) := by
  have h := extract_loop_inv R ortho wave_header file_rec hx file_rec.length (le_refl _)
  rw [List.take_length] at h
  unfold extract
  rw [final_cleanup_ofp]
  exact h.1

theorem extract_same_file (R : Readers) (ortho : Bool) (x : Int) :
    ∀ (run : List NV_I32_COORD2) (i : Nat) (s : ExtractState), s.prev_file = x →
      (∀ d ∈ run, d.x = x) →
      (extract_loop R ortho i run s).ofp = s.ofp ++
        (if s.good = true then
          run.flatMap (fun d => record_block R ortho s.hfp s.wfp s.wave_header d.y)
        else []) := by
  intro run
  induction run with
  | nil => intro i s _ _; simp [extract_loop]
  | cons d run ih =>
    intro i s hs hrun
    have hd : d.x = x := hrun d (List.mem_cons_self _ _)
    have hrest : ∀ e ∈ run, e.x = x := fun e he => hrun e (List.mem_cons_of_mem _ he)
    have hpe : s.prev_file = d.x := hs.trans hd.symm
    rw [extract_loop]
    by_cases hg : s.good = true
    · have hstep : extract_step R ortho i d s =
          { prev_file := s.prev_file, good := s.good, hfp := s.hfp, wfp := s.wfp,
            wave_header := s.wave_header,
            ofp := s.ofp ++ record_block R ortho s.hfp s.wfp s.wave_header d.y,
            events := s.events } := by
        simp only [extract_step, hpe, hg, ne_eq, not_true_eq_false, if_false, if_true]
      have h := ih (i + 1) (extract_step R ortho i d s) (by rw [hstep]; exact hs) hrest
      rw [h, hstep]
      simp only [hg, if_true, List.flatMap_cons, List.append_assoc]
    · have hstep : extract_step R ortho i d s = s := by
        simp only [extract_step, hpe, hg, ne_eq, not_true_eq_false, if_false,
          Bool.false_eq_true]
      rw [hstep, ih (i + 1) s hs hrest]
      simp only [hg, if_false, Bool.false_eq_true]

/-- A run entered from any state with another `prev_file` writes one block
for each candidate after its first if both files open, and nothing if not. -/
theorem extract_run (R : Readers) (ortho : Bool) (s : ExtractState) (i : Nat)
    (c : NV_I32_COORD2) (run : List NV_I32_COORD2) (hs : s.prev_file ≠ c.x)
    (hrun : ∀ d ∈ run, d.x = c.x) :
    (extract_loop R ortho i (c :: run) s).ofp = s.ofp ++
      (if R.open_hof_file i = true ∧ R.open_wave_file i = true then
        run.flatMap (fun d =>
          record_block R ortho (some i) (some i) (R.wave_read_header (some i)) d.y)
      else []) := by
  rw [extract_loop]
  have hp : (extract_step R ortho i c s).prev_file = c.x := by
    simp only [extract_step, hs, ne_eq, not_false_eq_true, if_true]
    split_ifs <;> rfl
  rw [extract_same_file R ortho c.x run (i + 1) (extract_step R ortho i c s) hp hrun]
  by_cases h1 : R.open_hof_file i = true <;> by_cases h2 : R.open_wave_file i = true <;>
    simp only [extract_step, hs, ne_eq, not_false_eq_true, if_true, h1, h2, if_false,
      and_self, and_false, false_and, Bool.false_eq_true]

/-- C5. With non-negative file ids, the output file holds the header line
and then, candidate after candidate, one block of five lines for each
candidate that is not the first of its run and whose run opened both its
sounding and its waveform file, and nothing for any other candidate. A run
entered from any state left by earlier runs writes one block per candidate
after its first when both files open, that is five lines for each of them,
and no line when an open fails. -/
theorem extraction_blocks (R : Readers) (ortho : Bool) (wave_header : WAVE_HEADER_T)
    (file_rec : List NV_I32_COORD2) (hx : ∀ c ∈ file_rec, 0 ≤ c.x) :
    (extract R ortho wave_header file_rec).ofp =
      header_line :: (List.range file_rec.length).flatMap (fun i =>
        if run_start file_rec i ≠ i ∧ R.open_hof_file (run_start file_rec i) = true ∧
            R.open_wave_file (run_start file_rec i) = true
        then record_block R ortho (some (run_start file_rec i)) (some (run_start file_rec i))
          (R.wave_read_header (some (run_start file_rec i)))
          (file_rec.getD i { x := 0, y := 0 }).y
        else []) ∧
    (∀ hfp wfp hdr recnum, (record_block R ortho hfp wfp hdr recnum).length = 5) ∧
    (∀ (s : ExtractState) (i : Nat) (c : NV_I32_COORD2) (run : List NV_I32_COORD2),
      s.prev_file ≠ c.x → (∀ d ∈ run, d.x = c.x) →
        (extract_loop R ortho i (c :: run) s).ofp = s.ofp ++
          (if R.open_hof_file i = true ∧ R.open_wave_file i = true then
            run.flatMap (fun d =>
              record_block R ortho (some i) (some i) (R.wave_read_header (some i)) d.y)
          else []) ∧
        (extract_loop R ortho i (c :: run) s).ofp.length = s.ofp.length +
          (if R.open_hof_file i = true ∧ R.open_wave_file i = true then 5 * run.length
          else 0)) := by
  refine ⟨extract_ofp R ortho wave_header file_rec hx, record_block_length R ortho, ?_⟩
  intro s i c run hs hrun
  have h := extract_run R ortho s i c run hs hrun
  refine ⟨h, ?_⟩
  rw [h, List.length_append]
  split_ifs
  · congr 1
    induction run with
    | nil => rfl
    | cons d run ih =>
      rw [List.flatMap_cons, List.length_append, record_block_length,
        ih (fun e he => hrun e (List.mem_cons_of_mem _ he))
          (extract_run R ortho s i c run hs (fun e he => hrun e (List.mem_cons_of_mem _ he)))]
      simp only [List.length_cons]
      omega
  · rfl

set_option maxRecDepth 100000 in
/-- Witness of C5: three runs of two candidates, the second without a
waveform file; the output is the header line and the blocks of the second
candidates of the first and of the third run. -/
theorem extraction_blocks_witness :
    sample_file_rec.all (fun c => decide (0 ≤ c.x)) = true ∧
    (extract sample_readers true sample_header sample_file_rec).ofp =
      [header_line,
       "30.000000000,-88.000000000,z\n", "9,10,11\n", "1,2\n", "2\n", "\n",
       "30.000000000,-88.000000000,z\n", "7,8,9\n", "1,2\n", "2\n", "\n"] :=
  ⟨by decide,
    (extraction_blocks sample_readers true sample_header sample_file_rec (by decide)).1.trans
      (by decide)⟩

/-! ## The sort step -/

/-- The comparison function is not a valid `qsort` comparison function: it
never returns a negative value, so it reports the pair (1, 0), (2, 0) as
equal one way and as greater the other way. The sort step therefore rests on
how the library uses the result, not on the contract of `qsort`. -/
theorem compare_files_not_valid : ¬ ValidComparator compare_files := by
  intro hv
  have h := (hv.1 { x := 1, y := 0 } { x := 2, y := 0 }).mpr (by decide)
  exact absurd h (by decide)

/-- C10 (a sounding stream is left open). For two candidates of file 0
whose sounding file opens and whose waveform file does not, the only stream
event of the whole extraction is the opening of the sounding file: `good`
stays false, so neither the next run nor the final cleanup closes it, and it
is still open when `main` returns. When both files open, both are closed by
the final cleanup and nothing stays open. -/
theorem hof_stream_left_open :
    ((extract readers_without_wave true sample_header
        [{ x := 0, y := 7 }, { x := 0, y := 8 }]).events =
        [HandleEvent.fopen { kind := FileKind.hof, id := 0 }] ∧
      still_open (extract readers_without_wave true sample_header
        [{ x := 0, y := 7 }, { x := 0, y := 8 }]).events = [{ kind := FileKind.hof, id := 0 }] ∧
      (extract readers_without_wave true sample_header
        [{ x := 0, y := 7 }, { x := 0, y := 8 }]).hfp = some 0 ∧
      (extract readers_without_wave true sample_header
        [{ x := 0, y := 7 }, { x := 0, y := 8 }]).good = false) ∧
    ((extract sample_readers true sample_header
        [{ x := 0, y := 7 }, { x := 0, y := 8 }]).events =
        [HandleEvent.fopen { kind := FileKind.hof, id := 0 },
         HandleEvent.fopen { kind := FileKind.wave, id := 0 },
         HandleEvent.fclose { kind := FileKind.wave, id := 0 },
         HandleEvent.fclose { kind := FileKind.hof, id := 0 }] ∧
      still_open (extract sample_readers true sample_header
        [{ x := 0, y := 7 }, { x := 0, y := 8 }]).events = []) := by
  refine ⟨⟨by decide, by decide, by decide, by decide⟩, by decide, by decide⟩

/-! ## The area file check -/

theorem strstr_append (needle : List Char) : ∀ (pre post : List Char),
    strstr (pre ++ needle ++ post) needle ≠ none := by
  intro pre
  induction pre with
  | nil =>
    intro post
    cases needle with
    | nil =>
      cases post with
      | nil => simp [strstr]
      | cons c cs => simp [strstr]
    | cons n ns =>
      have h : (n :: ns).isPrefixOf (n :: ns ++ post) = true := by
        rw [List.isPrefixOf_iff_prefix]
        exact List.prefix_append _ _
      simp only [List.nil_append, List.cons_append] at h ⊢
      simp [strstr, h]
  | cons c pre ih =>
    intro post
    simp only [List.cons_append, strstr]
    split_ifs
    · simp
    · exact ih post

theorem extension_suffix : ∀ (name e : List Char), extension name = some e →
    ∃ pre, name = pre ++ e := by
  intro name
  induction name with
  | nil => intro e h; simp [extension] at h
  | cons c cs ih =>
    intro e h
    unfold extension at h
    cases hcs : extension cs with
    | some e2 =>
      rw [hcs] at h
      simp only [Option.some.injEq] at h
      obtain ⟨pre, hpre⟩ := ih e2 hcs
      exact ⟨c :: pre, by rw [← h, hpre]; rfl⟩
    | none =>
      rw [hcs] at h
      simp only at h
      split_ifs at h
      · simp only [Option.some.injEq] at h
        exact ⟨[], by rw [← h]; rfl⟩

theorem strstr_suffix_isNone (pre needle : List Char) :
    (strstr (pre ++ needle) needle).isNone = false := by
  have hs := strstr_append needle pre []
  rw [List.append_nil] at hs
  cases hc : strstr (pre ++ needle) needle with
  | none => exact absurd hc hs
  | some v => rfl

/-- A name whose extension is one of the three passes the check. -/
theorem known_extension_accepted (name : List Char)
    (h : extension name = some ".are".data ∨ extension name = some ".ARE".data ∨
      extension name = some ".afs".data) : known_area_file name = true := by
  unfold known_area_file
  rcases h with h | h | h
  · obtain ⟨pre, rfl⟩ := extension_suffix _ _ h
    simp [strstr_suffix_isNone pre ".are".data]
  · obtain ⟨pre, rfl⟩ := extension_suffix _ _ h
    simp [strstr_suffix_isNone pre ".ARE".data]
  · obtain ⟨pre, rfl⟩ := extension_suffix _ _ h
    simp [strstr_suffix_isNone pre ".afs".data]

/-- C8 (a name with another extension passes). The name `poly.are.txt` has
the extension `.txt`, which is none of the three, yet `strstr` finds `.are`
inside it and the check of `main` takes it for an area file: no usage
message, the polygon is loaded and the output file is opened. The check
does reject `poly.txt`, with the usage message and status -1 before the
polygon is loaded or the output opened, and it accepts every name whose
extension is one of the three. -/
theorem area_check_accepts_txt :
    (extension "poly.are.txt".data = some ".txt".data ∧
      strstr "poly.are.txt".data ".are".data = some ".are.txt".data ∧
      known_area_file "poly.are.txt".data = true ∧
      (main sample_world (sample_args "poly.are.txt")).usage_shown = false ∧
      (main sample_world (sample_args "poly.are.txt")).area_loaded = true ∧
      (main sample_world (sample_args "poly.are.txt")).out_opened = true ∧
      (main sample_world (sample_args "poly.are.txt")).status = 0) ∧
    ((main sample_world (sample_args "poly.txt")).usage_shown = true ∧
      (main sample_world (sample_args "poly.txt")).status = -1 ∧
      (main sample_world (sample_args "poly.txt")).area_loaded = false ∧
      (main sample_world (sample_args "poly.txt")).out_opened = false) ∧
    (∀ name, (extension name = some ".are".data ∨ extension name = some ".ARE".data ∨
      extension name = some ".afs".data) → known_area_file name = true) := by
  refine ⟨⟨by decide, by decide, by decide, by decide, by decide, by decide, by decide⟩,
    ⟨by decide, by decide, by decide, by decide⟩, known_extension_accepted⟩

/-! ## The bounds check -/

theorem extract_loop_ofp (R : Readers) (ortho : Bool) :
    ∀ (l : List NV_I32_COORD2) (i : Nat) (s : ExtractState),
      ∃ t, (extract_loop R ortho i l s).ofp = s.ofp ++ t := by
  intro l
  induction l with
  | nil => intro i s; exact ⟨[], by simp [extract_loop]⟩
  | cons c l ih =>
    intro i s
    obtain ⟨t, ht⟩ := ih (i + 1) (extract_step R ortho i c s)
    have hstep : ∃ u, (extract_step R ortho i c s).ofp = s.ofp ++ u := by
      unfold extract_step
      split_ifs <;> first | exact ⟨_, rfl⟩ | exact ⟨[], by simp⟩
    obtain ⟨u, hu⟩ := hstep
    exact ⟨u ++ t, by rw [extract_loop, ht, hu, List.append_assoc]⟩

/-- The output file always starts with the header line. -/
theorem extract_ofp_head (R : Readers) (ortho : Bool) (wave_header : WAVE_HEADER_T)
    (file_rec : List NV_I32_COORD2) :
    (extract R ortho wave_header file_rec).ofp.head? = some header_line := by
  obtain ⟨t, ht⟩ := extract_loop_ofp R ortho file_rec 0 (extract_init wave_header)
  unfold extract
  rw [final_cleanup_ofp, ht]
  simp [extract_init]

/-- C7. When the run reaches the bounds check (arguments complete, index
opened, area file name accepted, output file opened, hydro data present):
if the bounding box lies entirely outside the index bounds the program
exits with status -1 without reading a bin and without writing a line, so
the output file stays empty; otherwise the check does not exit: the program
goes on, writes the header line and returns 0. -/
theorem outside_bounds_rejection (w : World) (a : Args)
    (hbad : a.bad_option = false) (hargs : a.have_pfm = true ∧ a.got_area = true ∧ a.got_out = true)
    (hpfm : 0 ≤ w.pfm_handle) (harea : known_area_file a.area_file = true)
    (hout : w.fopen_out = true) (hhit : (build_lut w.k w.pfm).hit = true) :
    ((w.area.mbr.min_y > w.pfm.head.mbr.max_y ∨ w.area.mbr.max_y < w.pfm.head.mbr.min_y ∨
        w.area.mbr.min_x > w.pfm.head.mbr.max_x ∨ w.area.mbr.max_x < w.pfm.head.mbr.min_x) →
      (main w a).status = -1 ∧ (main w a).bins_read = [] ∧ (main w a).ofp = [] ∧
        (main w a).events = []) ∧
    (¬ (w.area.mbr.min_y > w.pfm.head.mbr.max_y ∨ w.area.mbr.max_y < w.pfm.head.mbr.min_y ∨
        w.area.mbr.min_x > w.pfm.head.mbr.max_x ∨ w.area.mbr.max_x < w.pfm.head.mbr.min_x) →
      (main w a).status = 0 ∧ (main w a).ofp.head? = some header_line) := by
  obtain ⟨h1, h2, h3⟩ := hargs
  have hp : ¬ w.pfm_handle < 0 := not_lt.mpr hpfm
  constructor
  · intro ho
    have hob : outside_pfm_bounds w.area.mbr w.pfm.head.mbr = true := by
      simp only [outside_pfm_bounds, decide_eq_true_eq]
      exact ho
    simp [main, hbad, h1, h2, h3, hp, harea, hout, hhit, hob, early_exit]
  · intro ho
    have hob : outside_pfm_bounds w.area.mbr w.pfm.head.mbr = false := by
      simp only [outside_pfm_bounds, decide_eq_false_iff_not]
      exact ho
    simp [main, hbad, h1, h2, h3, hp, harea, hout, hhit, hob, extract_ofp_head]

/-- Witness of C7: on the sample index of 4 by 4 unit bins, an area with
`min_x = 5` is rejected and leaves the output empty, and the area that
covers the index is not. -/
theorem outside_bounds_rejection_witness :
    ((main sample_world_outside (sample_args "east.are")).status = -1 ∧
      (main sample_world_outside (sample_args "east.are")).bins_read = [] ∧
      (main sample_world_outside (sample_args "east.are")).ofp = [] ∧
      (main sample_world_outside (sample_args "east.are")).events = []) ∧
    ((main sample_world (sample_args "all.are")).status = 0 ∧
      (main sample_world (sample_args "all.are")).ofp.head? = some header_line) :=
  ⟨(outside_bounds_rejection sample_world_outside (sample_args "east.are") (by decide)
      (by decide) (by decide) (by decide) (by decide) (by decide)).1 (by decide),
    (outside_bounds_rejection sample_world (sample_args "all.are") (by decide)
      (by decide) (by decide) (by decide) (by decide) (by decide)).2 (by decide)⟩


/-! ## The data type table -/

theorem lut_step_lut (k : PfmConsts) (pfm : PFM) (i : Int) (s : LutState) :
    (lut_step k pfm i s).data_type_lut = s.data_type_lut.set i.toNat (pfm.read_list_file i) := by
  unfold lut_step
  dsimp only
  split_ifs <;> rfl

theorem getD_set_eq (L : List Int) (t n : Nat) (v : Int) (ht : t < L.length) :
    (L.set t v).getD n 0 = if n = t then v else L.getD n 0 := by
  by_cases hnt : n = t
  · subst hnt
    simp [List.getD_eq_getElem?_getD, List.getElem?_set, ht]
  · rw [List.getD_eq_getElem?_getD, List.getD_eq_getElem?_getD,
      List.getElem?_set_ne (fun h => hnt h.symm), if_neg hnt]

theorem lut_foldl (k : PfmConsts) (pfm : PFM) (N : Nat) :
    ∀ t : Nat, t ≤ N →
      (((List.range t).map (fun (n : Nat) => (0 : Int) + (n : Int))).foldl
          (fun s i => lut_step k pfm i s)
          { data_type_lut := List.replicate N 0, hit := false }).data_type_lut.length = N ∧
      ∀ n, n < N →
        (((List.range t).map (fun (n : Nat) => (0 : Int) + (n : Int))).foldl
            (fun s i => lut_step k pfm i s)
            { data_type_lut := List.replicate N 0, hit := false }).data_type_lut.getD n 0 =
          if n < t then pfm.read_list_file (n : Int) else 0 := by
  intro t
  induction t with
  | zero =>
    intro _
    refine ⟨by simp, ?_⟩
    intro n hn
    simp [List.getD_eq_getElem?_getD, List.getElem?_replicate, hn]
  | succ t ih =>
    intro ht
    obtain ⟨hlen, hget⟩ := ih (by omega)
    rw [List.range_succ, List.map_append, List.foldl_append]
    simp only [List.map_cons, List.map_nil, List.foldl_cons, List.foldl_nil, lut_step_lut]
    have ht' : ((0 : Int) + (t : Int)).toNat = t := by omega
    rw [ht']
    refine ⟨by rw [List.length_set]; exact hlen, ?_⟩
    intro n hn
    rw [getD_set_eq _ _ _ _ (by rw [hlen]; omega), hget n hn]
    by_cases hnt : n = t
    · subst hnt
      simp
    · by_cases hlt : n < t
      · have : n < t + 1 := by omega
        simp [hnt, hlt, this]
      · have : ¬ n < t + 1 := by omega
        simp [hnt, hlt, this]

/-- After the table loop, entry `n` of `data_type_lut` holds the data type
of list file `n` for `n < last` and zero above, provided `last ≤ 4096`. -/
theorem build_lut_read (k : PfmConsts) (pfm : PFM) (hlast : pfm.last ≤ 4096) (n : Nat)
    (hn : n < 4096) :
    lut_read (build_lut k pfm).data_type_lut n =
      if (n : Int) < pfm.last then pfm.read_list_file (n : Int) else 0 := by
  unfold lut_read build_lut
  rw [forLoop_eq_foldl]
  unfold intRange
  rw [(lut_foldl k pfm 4096 (pfm.last - 0).toNat (by omega)).2 n hn]
  by_cases h : (n : Int) < pfm.last
  · have : n < (pfm.last - 0).toNat := by omega
    simp [h, this]
  · have : ¬ n < (pfm.last - 0).toNat := by omega
    simp [h, this]

theorem mem_scan_file_rec (k : PfmConsts) (pfm : PFM) (area : Area) (lut : Nat → Int)
    (inval : Bool) (x_start y_start width height : Int) (p : NV_I32_COORD2)
    (hp : p ∈ (scan k pfm area lut inval x_start y_start width height).file_rec) :
    ∃ c ∈ window_cells x_start y_start width height, ∃ d ∈ bin_records pfm c,
      p = { x := (d.file_number : Int), y := (d.ping_number : Int) } ∧
      (lut d.file_number = k.PFM_SHOALS_1K_DATA ∨ lut d.file_number = k.PFM_CHARTS_HOF_DATA) := by
  rw [scan_eq] at hp
  simp only [List.mem_flatMap] at hp
  obtain ⟨c, hc, d, hd, hpd⟩ := hp
  refine ⟨c, hc, d, hd, ?_⟩
  unfold candidate_of at hpd
  split_ifs at hpd with hcond
  · exact ⟨List.mem_singleton.mp hpd, hcond.2.2.1⟩
  · exact absurd hpd (List.not_mem_nil _)

/-- C9. With a manifest of at most 4096 files, scanned records whose file
numbers are below 4096 and both recognised type tags different from zero,
every pair in the candidate list has a file id in `[0, last)`: it indexes an
entry that the table loop filled, the table holds the data type of that
list file there, and that type is one of the two recognised ones. -/
theorem candidate_file_ids (k : PfmConsts) (pfm : PFM) (area : Area) (inval : Bool)
    (x_start y_start width height : Int) (hlast : pfm.last ≤ 4096)
    (hfn : ∀ c ∈ window_cells x_start y_start width height, ∀ d ∈ bin_records pfm c,
      d.file_number < 4096)
    (hs : k.PFM_SHOALS_1K_DATA ≠ 0) (hh : k.PFM_CHARTS_HOF_DATA ≠ 0) :
    ∀ p ∈ (scan k pfm area (lut_read (build_lut k pfm).data_type_lut) inval
        x_start y_start width height).file_rec,
      (0 ≤ p.x ∧ p.x < pfm.last) ∧
      lut_read (build_lut k pfm).data_type_lut p.x.toNat = pfm.read_list_file p.x ∧
      (pfm.read_list_file p.x = k.PFM_SHOALS_1K_DATA ∨
        pfm.read_list_file p.x = k.PFM_CHARTS_HOF_DATA) := by
  intro p hp
  obtain ⟨c, hc, d, hd, rfl, htype⟩ := mem_scan_file_rec k pfm area _ inval _ _ _ _ p hp
  have hlt := hfn c hc d hd
  rw [build_lut_read k pfm hlast d.file_number hlt] at htype
  have hin : (d.file_number : Int) < pfm.last := by
    by_contra hcon
    rw [if_neg hcon] at htype
    rcases htype with h | h
    · exact hs h.symm
    · exact hh h.symm
  rw [if_pos hin] at htype
  have hnat : ((d.file_number : Int)).toNat = d.file_number := by omega
  refine ⟨⟨by simp, hin⟩, ?_, htype⟩
  show lut_read _ ((d.file_number : Int)).toNat = _
  rw [hnat, build_lut_read k pfm hlast d.file_number hlt, if_pos hin]

/-- Witness of C9: on the sample index the candidate (0, 7) is collected,
and file 0 is a populated entry of HOF type. -/
theorem candidate_file_ids_witness :
    ({ x := 0, y := 7 } : NV_I32_COORD2) ∈ (scan sample_consts sample_pfm sample_area
      (lut_read (build_lut sample_consts sample_pfm).data_type_lut) false 0 0 4 4).file_rec ∧
    (((0 : Int) ≤ 0 ∧ (0 : Int) < sample_pfm.last) ∧
      lut_read (build_lut sample_consts sample_pfm).data_type_lut 0 =
        sample_pfm.read_list_file 0 ∧
      (sample_pfm.read_list_file 0 = sample_consts.PFM_SHOALS_1K_DATA ∨
        sample_pfm.read_list_file 0 = sample_consts.PFM_CHARTS_HOF_DATA)) :=
  have hmem : ({ x := 0, y := 7 } : NV_I32_COORD2) ∈ (scan sample_consts sample_pfm sample_area
      (lut_read (build_lut sample_consts sample_pfm).data_type_lut) false 0 0 4 4).file_rec := by
    rw [scan_eq]
    decide
  ⟨hmem, candidate_file_ids sample_consts sample_pfm sample_area false 0 0 4 4 (by decide)
    (by decide) (by decide) (by decide) { x := 0, y := 7 } hmem⟩

/-! ## The grid window -/

end DumpWaveforms
